import Mathlib

/-!
Verification of the TotalSpineSeg preprocessing utilities.

This file gives a shallow embedding of the repository's metadata-reconciliation
script (`fix_metadata.py`) and of the JSON label-map / class-order rewriting
scripts (`scripts/update_jsons.py`, `scripts/update_json_order.py`,
`scripts/revert_json_order.py`), and proves properties of the embedded code.

Volumes are modelled as records holding the voxel array (a list of integers),
the affine transform (an opaque list of matrix entries, only ever copied),
the qform/sform codes, the data type and an opaque residue of the remaining
header fields.  The filesystem is a map from paths to file contents, together
with a writability predicate used to model save-time I/O failures.
-/

namespace TotalSpineSeg

/-! ## Definitions -/

/-- Model of Python `str.replace(pat, rep)`: replaces every non-overlapping
occurrence of `pat` in the subject, scanning left to right.  The `fuel`
argument only drives structural recursion; each step consumes at least one
character, so `s.length` fuel always suffices. -/
def replaceAllAux : Nat → List Char → List Char → List Char → List Char
  | 0, _, _, s => s
  | fuel + 1, pat, rep, s =>
    match s with
    | [] => []
    | c :: rest =>
      if pat ≠ [] ∧ pat.isPrefixOf (c :: rest) then
        rep ++ replaceAllAux fuel pat rep ((c :: rest).drop pat.length)
      else
        c :: replaceAllAux fuel pat rep rest

/-- Python `s.replace(pat, rep)`. -/
def pyReplace (s pat rep : String) : String :=
  ⟨replaceAllAux s.data.length pat.data rep.data s.data⟩

/-- Index of the last occurrence of a character in a list (Python `str.rfind`). -/
def lastIdxOfAux (c : Char) : List Char → Nat → Option Nat → Option Nat
  | [], _, acc => acc
  | d :: rest, i, acc => lastIdxOfAux c rest (i + 1) (if d = c then some i else acc)

/-- Index of the last occurrence of a character, if any. -/
def lastIdxOf (c : Char) (l : List Char) : Option Nat :=
  lastIdxOfAux c l 0 none

/-- Model of Python `pathlib.PurePath(name).stem`: the file name with its last
suffix removed.  A suffix starts at the last dot, provided that dot is neither
the first nor the last character of the name. -/
def pyStem (name : List Char) : List Char :=
  match lastIdxOf '.' name with
  | none => name
  | some i => if 0 < i ∧ i + 1 < name.length then name.take i else name

/-- Python `Path(...).stem` on a `String`. -/
def pyStemStr (s : String) : String := ⟨pyStem s.data⟩

/-- The reference-channel suffix of the naming convention. -/
def suffix0000 : String := "_0000.nii.gz"

/-- The dependent-channel suffix of the naming convention. -/
def suffix0001 : String := "_0001.nii.gz"

/-- The extension fragment rewritten when forming a backup file name. -/
def niiExt : String := ".nii"

/-- The replacement fragment marking a backup file name. -/
def backupNii : String := "_backup.nii"

/-- The compressed-file extension appended to a backup file name. -/
def gzExt : String := ".gz"

/-- A path: a parent directory (opaque) and a file name. -/
structure NPath where
  dir : String
  name : String
deriving DecidableEq

/-- The dependent path derived from a reference path, as in
`_fix_metadata_wrapper`: same directory, file name obtained by Python
`name.replace('_0000.nii.gz', '_0001.nii.gz')` (which replaces every
occurrence). -/
def depPathOf (p : NPath) : NPath :=
  ⟨p.dir, pyReplace p.name suffix0000 suffix0001⟩

/-- The backup path derived from a dependent path, as in `fix_metadata`:
`parent / (stem.replace('.nii', '_backup.nii') + '.gz')`. -/
def backupPathOf (p : NPath) : NPath :=
  ⟨p.dir, pyReplace (pyStemStr p.name) niiExt backupNii ++ gzExt⟩

/-- Modelled from the spec: derivation of the dependent file name by replacing
the `_0000.nii.gz` *suffix* of the reference file name (the spec's wording),
for comparison with the source's replace-all derivation `depPathOf`. -/
def suffixReplaceSpec (s pat rep : String) : String :=
  if pat.data.isSuffixOf s.data then
    ⟨s.data.take (s.data.length - pat.data.length) ++ rep.data⟩
  else s

/-- NIfTI on-disk data types that occur in this pipeline. -/
inductive Dtype where
  | uint8
  | int16
  | float32
  | float64
deriving DecidableEq

/-- A volumetric image: voxel array, 4x4 affine (kept as an opaque entry list,
the scripts only ever copy it), qform/sform codes, data type, and an opaque
residue of the remaining header fields. -/
structure Volume where
  data : List Int
  affine : List Int
  qform_code : Int
  sform_code : Int
  dtype : Dtype
  hdrRest : Int
deriving DecidableEq

/-- Model of `np.asanyarray(...).astype(np.uint8)` on an integer voxel array:
a C-style cast to 8-bit unsigned, i.e. reduction modulo 256 into `[0, 255]`. -/
def castU8 (l : List Int) : List Int := l.map (fun v => v % 256)

/-- A file on disk: either a loadable volume or a corrupt blob whose load
raises with the stored message. -/
inductive FileContent where
  | vol (v : Volume)
  | corrupt (msg : String)
deriving DecidableEq

/-- The filesystem: contents per path, plus a writability predicate used to
model save-time I/O errors (e.g. permission denied). -/
structure FS where
  files : NPath → Option FileContent
  writable : NPath → Bool

/-- Load-error message for an absent file. -/
def noFileMsg (p : NPath) : String := "No such file or directory: " ++ p.name

/-- Save-error message for an unwritable path. -/
def writeDeniedMsg (p : NPath) : String := "Permission denied: " ++ p.name

/-- Model of `nib.load`: raises (returns `.error`) when the file is absent or
corrupt. -/
def loadVol (fs : FS) (p : NPath) : Except String Volume :=
  match fs.files p with
  | none => .error (noFileMsg p)
  | some (.corrupt m) => .error m
  | some (.vol v) => .ok v

/-- The filesystem after an (unconditional) store of a volume at a path. -/
def writeFile (fs : FS) (p : NPath) (v : Volume) : FS :=
  { files := fun q => if q = p then some (.vol v) else fs.files q
    writable := fs.writable }

/-- Model of `nib.save`: overwrites or creates the file, raising when the
path is not writable. -/
def saveVol (fs : FS) (p : NPath) (v : Volume) : Except String FS :=
  if fs.writable p then .ok (writeFile fs p v) else .error (writeDeniedMsg p)

/-- The reconciled volume built in `fix_metadata`: the dependent voxels cast
to uint8 (`data_0001`), the reference affine (`ref_affine`), the reference
header (`ref_header`, the opaque residue), the explicit
`set_data_dtype(np.uint8)`, and the explicit `set_qform`/`set_sform` copies of
the reference codes. -/
def mkFixed (img0 img1 : Volume) : Volume :=
  { data := castU8 img1.data
    affine := img0.affine
    qform_code := img0.qform_code
    sform_code := img0.sform_code
    dtype := .uint8
    hdrRest := img0.hdrRest }

/-- Embedding of `fix_metadata(image_0000_path, image_0001_path, overwrite)`.
The result pairs the final filesystem with the Python return value: `.ok b`
when the function returns `b`, `.error e` when it raises `e` (intermediate
writes persist, as on a real filesystem).  The `Option Bool` inner value
keeps the source's control flow: each branch of the `if overwrite` returns
`some true`, and the fall-through to the trailing `return False` (reached
only on `none`) is kept so that its unreachability can be stated. -/
def fix_metadata (fs : FS) (refP depP : NPath) (overwrite : Bool) :
    FS × Except String Bool :=
  match loadVol fs refP with
  | .error e => (fs, .error e)
  | .ok img0 =>
    match loadVol fs depP with
    | .error e => (fs, .error e)
    | .ok img1 =>
      let fixed := mkFixed img0 img1
      let step : FS × Except String (Option Bool) :=
        if overwrite then
          match saveVol fs depP fixed with
          | .error e => (fs, .error e)
          | .ok fs1 => (fs1, .ok (some true))
        else
          match saveVol fs (backupPathOf depP) img1 with
          | .error e => (fs, .error e)
          | .ok fs1 =>
            match saveVol fs1 depP fixed with
            | .error e => (fs1, .error e)
            | .ok fs2 => (fs2, .ok (some true))
      match step with
      | (fs1, .ok (some b)) => (fs1, .ok b)
      | (fs1, .ok none) => (fs1, .ok false)
      | (fs1, .error e) => (fs1, .error e)

/-- Outcome of one pair, as returned by `_fix_metadata_wrapper`. -/
inductive Outcome where
  | missing (name : String)
  | success
  | error (msg : String)
deriving DecidableEq

/-- The separator used when the wrapper formats a caught exception. -/
def errSep : String := ": "

/-- Embedding of `_fix_metadata_wrapper(img_0000_path, overwrite)`: derives
the dependent path, reports `missing` without touching the filesystem when it
does not exist, and otherwise runs `fix_metadata`, converting any raised
exception into an `error` outcome tagged with the dependent file name. -/
def fixMetadataWrapper (fs : FS) (p : NPath) (overwrite : Bool) : Outcome × FS :=
  let depP := depPathOf p
  match fs.files depP with
  | none => (.missing p.name, fs)
  | some _ =>
    match fix_metadata fs p depP overwrite with
    | (fs1, .ok _) => (.success, fs1)
    | (fs1, .error e) => (.error (depP.name ++ errSep ++ e), fs1)

/-- Directory used by the concrete test fixtures. -/
def dirW : String := "imagesTr"

/-- Reference file name of the concrete fixture. -/
def nameRefW : String := "caseA_0000.nii.gz"

/-- Dependent file name of the concrete fixture. -/
def nameDepW : String := "caseA_0001.nii.gz"

/-- Reference path of the concrete fixture. -/
def refW : NPath := ⟨dirW, nameRefW⟩

/-- Dependent path of the concrete fixture. -/
def depW : NPath := ⟨dirW, nameDepW⟩

/-- Reference volume of the concrete fixture. -/
def vrW : Volume :=
  { data := [7, 9]
    affine := [2, 0, 0, 10, 0, 2, 0, 20, 0, 0, 2, 30, 0, 0, 0, 1]
    qform_code := 1
    sform_code := 2
    dtype := .float32
    hdrRest := 11 }

/-- Dependent volume of the concrete fixture (note the values 300 and -1,
which change under the uint8 cast). -/
def vdW : Volume :=
  { data := [5, 300, -1]
    affine := [1, 0, 0, 0, 0, 1, 0, 0, 0, 0, 1, 0, 0, 0, 0, 1]
    qform_code := 0
    sform_code := 0
    dtype := .int16
    hdrRest := 22 }

/-- Concrete two-file filesystem, everything writable. -/
def fsW : FS :=
  { files := fun q =>
      if q = refW then some (.vol vrW)
      else if q = depW then some (.vol vdW)
      else none
    writable := fun _ => true }

/-- Corrupt dependent-file fixture: the reference is fine but the dependent
file raises on load. -/
def corruptMsgW : String := "cannot determine magic"

/-- Filesystem where the dependent file exists but is corrupt. -/
def fsCorruptW : FS :=
  { files := fun q =>
      if q = refW then some (.vol vrW)
      else if q = depW then some (.corrupt corruptMsgW)
      else none
    writable := fun _ => true }

/-- Fixture name containing the `_0000.nii.gz` marker twice (and ending with
it, so it matches the batch driver's glob). -/
def nameTwiceW : String := "x_0000.nii.gz_0000.nii.gz"

/-- Filesystem containing only the reference file of the fixture. -/
def fsRefOnlyW : FS :=
  { files := fun q => if q = refW then some (.vol vrW) else none
    writable := fun _ => true }

/-- Self-pair fixture: a file name without the `_0000.nii.gz` marker, whose
derived dependent path is the reference path itself. -/
def nameSelfW : String := "scan.nii.gz"

/-- Path of the self-pair fixture. -/
def pSelfW : NPath := ⟨dirW, nameSelfW⟩

/-- Filesystem holding the self-pair fixture file (voxel value 300 changes
under the uint8 cast, so reconciliation rewrites the content). -/
def fsSelfW : FS :=
  { files := fun q => if q = pSelfW then some (.vol vdW) else none
    writable := fun _ => true }

/-- Python dict assignment `d[k] = v` on an insertion-ordered association
list: an existing key keeps its position and gets the new value, a new key is
appended at the end. -/
def pyInsert (k : String) (v : Int) : List (String × Int) → List (String × Int)
  | [] => [(k, v)]
  | (k1, v1) :: rest =>
    if k1 = k then (k, v) :: rest else (k1, v1) :: pyInsert k v rest

/-- The key inserted for the LDH label. -/
def key101 : String := "101"

/-- Embedding of `update_step1_map`: starts from `{"101": 1}` and then, for
every entry of the input in order, assigns `new_data[k] = v + 1`. -/
def update_step1_map (data : List (String × Int)) : List (String × Int) :=
  data.foldl (fun acc kv => pyInsert kv.1 (kv.2 + 1) acc) (pyInsert key101 1 [])

/-- Embedding of `update_step2_map`, whose body is identical to
`update_step1_map` up to the file it rewrites. -/
def update_step2_map (data : List (String × Int)) : List (String × Int) :=
  data.foldl (fun acc kv => pyInsert kv.1 (kv.2 + 1) acc) (pyInsert key101 1 [])

/-- A key distinct from `"101"` for the C9 witness. -/
def keyOtherW : String := "23"

/-- The dataset-description dictionary: the `regions_class_order` list the
scripts rewrite, plus an opaque component standing for every other field
(labels, file ending, number of training cases, ...), which the scripts
read and write back unchanged. -/
structure Dataset where
  regions_class_order : List Int
  otherFields : String
deriving DecidableEq

/-- Python `list(range(1, n + 1))` as a list of integers. -/
def oneTo (n : Nat) : List Int := (List.range' 1 n).map (fun k => (k : Int))

/-- Embedding of `update_step1_json`: when `10` is present in
`regions_class_order`, removes its first occurrence (`list.remove`) and
reinserts it at the front (`list.insert(0, 10)`). -/
def update_step1_json (d : Dataset) : Dataset :=
  if (10 : Int) ∈ d.regions_class_order then
    { d with regions_class_order := 10 :: d.regions_class_order.erase 10 }
  else d

/-- Embedding of `update_step2_json`: same rewrite with the value `12`. -/
def update_step2_json (d : Dataset) : Dataset :=
  if (12 : Int) ∈ d.regions_class_order then
    { d with regions_class_order := 12 :: d.regions_class_order.erase 12 }
  else d

/-- Embedding of `revert_step1_json`: unconditionally recreates
`regions_class_order` as `list(range(1, 11))`. -/
def revert_step1_json (d : Dataset) : Dataset :=
  { d with regions_class_order := oneTo 10 }

/-- Embedding of `revert_step2_json`: unconditionally recreates
`regions_class_order` as `list(range(1, 13))`. -/
def revert_step2_json (d : Dataset) : Dataset :=
  { d with regions_class_order := oneTo 12 }

/-- Other-fields component of the C10 witness dataset. -/
def otherFieldsW : String := "labels and metadata"

/-- Concrete step-2 dataset for the C10 witness: the order `[1..12]`. -/
def datasetW : Dataset := ⟨oneTo 12, otherFieldsW⟩

/-- Concrete step-1 dataset for the C10 witness: the order `[1..10]`. -/
def datasetW1 : Dataset := ⟨oneTo 10, otherFieldsW⟩

/-! ## Theorems -/

theorem writeFile_files (fs : FS) (p : NPath) (v : Volume) (q : NPath) :
    (writeFile fs p v).files q = if q = p then some (.vol v) else fs.files q := rfl

theorem writeFile_writable (fs : FS) (p : NPath) (v : Volume) :
    (writeFile fs p v).writable = fs.writable := rfl

theorem loadVol_writeFile (fs : FS) (p : NPath) (v : Volume) (q : NPath) :
    loadVol (writeFile fs p v) q = if q = p then .ok v else loadVol fs q := by
  by_cases h : q = p <;> simp [loadVol, writeFile, h]

theorem castU8_idem (l : List Int) : castU8 (castU8 l) = castU8 l := by
  induction l with
  | nil => rfl
  | cons a t ih =>
    simp only [castU8, List.map_cons] at ih ⊢
    rw [Int.emod_emod_of_dvd a dvd_rfl]
    exact congrArg _ ih

theorem mkFixed_absorb (vr vd vr2 : Volume)
    (h : vr2 = vr ∨ vr2 = mkFixed vr vd) :
    mkFixed vr2 (mkFixed vr vd) = mkFixed vr vd := by
  rcases h with h | h <;> subst h <;> simp [mkFixed, castU8_idem]

/-- Successful execution of `fix_metadata` when both loads succeed and the
needed paths are writable: it returns `True` and performs exactly the writes
of the selected branch. -/
theorem fix_metadata_run (fs : FS) (refP depP : NPath) (ov : Bool) (vr vd : Volume)
    (h0 : loadVol fs refP = .ok vr) (h1 : loadVol fs depP = .ok vd)
    (hw : fs.writable depP = true)
    (hb : ov = false → fs.writable (backupPathOf depP) = true) :
    fix_metadata fs refP depP ov =
      (if ov then writeFile fs depP (mkFixed vr vd)
       else writeFile (writeFile fs (backupPathOf depP) vd) depP (mkFixed vr vd),
       .ok true) := by
  cases ov with
  | true => simp [fix_metadata, h0, h1, saveVol, hw]
  | false =>
    have hbw := hb rfl
    simp [fix_metadata, h0, h1, saveVol, hw, hbw, writeFile]

/-- Characterization of a non-raising run of `fix_metadata`: both loads
succeeded, the written paths were writable, the final filesystem holds the
branch's writes, and the returned value is `True`. -/
theorem fix_metadata_ok_cases (fs : FS) (refP depP : NPath) (ov : Bool)
    (fs1 : FS) (b : Bool) (h : fix_metadata fs refP depP ov = (fs1, .ok b)) :
    ∃ vr vd, loadVol fs refP = .ok vr ∧ loadVol fs depP = .ok vd ∧
      fs.writable depP = true ∧
      (ov = false → fs.writable (backupPathOf depP) = true) ∧
      fs1 = (if ov then writeFile fs depP (mkFixed vr vd)
             else writeFile (writeFile fs (backupPathOf depP) vd) depP
               (mkFixed vr vd)) ∧
      b = true := by
  cases hr : loadVol fs refP with
  | error e => rw [fix_metadata, hr] at h; simp at h
  | ok vr =>
    cases hd : loadVol fs depP with
    | error e => rw [fix_metadata, hr, hd] at h; simp at h
    | ok vd =>
      cases ov with
      | true =>
        by_cases hw : fs.writable depP = true
        · rw [fix_metadata_run fs refP depP true vr vd hr hd hw
            (fun hc => absurd hc (by decide))] at h
          injection h with h1 h2
          injection h2 with h3
          exact ⟨vr, vd, rfl, rfl, hw, fun hc => absurd hc (by decide),
            by rw [← h1], h3.symm⟩
        · have hcomp : fix_metadata fs refP depP true =
              (fs, .error (writeDeniedMsg depP)) := by
            simp [fix_metadata, hr, hd, saveVol, hw]
          rw [hcomp] at h
          simp at h
      | false =>
        by_cases hbw : fs.writable (backupPathOf depP) = true
        · by_cases hw : fs.writable depP = true
          · rw [fix_metadata_run fs refP depP false vr vd hr hd hw
              (fun _ => hbw)] at h
            injection h with h1 h2
            injection h2 with h3
            exact ⟨vr, vd, rfl, rfl, hw, fun _ => hbw, by rw [← h1], h3.symm⟩
          · have hcomp : fix_metadata fs refP depP false =
                (writeFile fs (backupPathOf depP) vd,
                 .error (writeDeniedMsg depP)) := by
              simp [fix_metadata, hr, hd, saveVol, hbw, hw, writeFile]
            rw [hcomp] at h
            simp at h
        · have hcomp : fix_metadata fs refP depP false =
              (fs, .error (writeDeniedMsg (backupPathOf depP))) := by
            simp [fix_metadata, hr, hd, saveVol, hbw]
          rw [hcomp] at h
          simp at h

/-- Frame property of `fix_metadata`: in every outcome (return or raise), any
path other than the dependent path and, in backup mode, the backup path is
untouched. -/
theorem fix_metadata_frame (fs : FS) (refP depP : NPath) (ov : Bool) (q : NPath)
    (hqd : q ≠ depP) (hqb : ov = false → q ≠ backupPathOf depP) :
    (fix_metadata fs refP depP ov).1.files q = fs.files q := by
  cases hr : loadVol fs refP with
  | error e => rw [fix_metadata, hr]
  | ok vr =>
    cases hd : loadVol fs depP with
    | error e => rw [fix_metadata, hr, hd]
    | ok vd =>
      cases ov with
      | true =>
        by_cases hw : fs.writable depP = true
        · rw [fix_metadata_run fs refP depP true vr vd hr hd hw
            (fun hc => absurd hc (by decide))]
          simp [writeFile, hqd]
        · have hcomp : fix_metadata fs refP depP true =
              (fs, .error (writeDeniedMsg depP)) := by
            simp [fix_metadata, hr, hd, saveVol, hw]
          rw [hcomp]
      | false =>
        have hqb2 := hqb rfl
        by_cases hbw : fs.writable (backupPathOf depP) = true
        · by_cases hw : fs.writable depP = true
          · rw [fix_metadata_run fs refP depP false vr vd hr hd hw (fun _ => hbw)]
            simp [writeFile, hqd, hqb2]
          · have hcomp : fix_metadata fs refP depP false =
                (writeFile fs (backupPathOf depP) vd,
                 .error (writeDeniedMsg depP)) := by
              simp [fix_metadata, hr, hd, saveVol, hbw, hw, writeFile]
            rw [hcomp]
            simp [writeFile, hqb2]
        · have hcomp : fix_metadata fs refP depP false =
              (fs, .error (writeDeniedMsg (backupPathOf depP))) := by
            simp [fix_metadata, hr, hd, saveVol, hbw]
          rw [hcomp]

/-- C1: for every volume pair on which `fix_metadata` completes successfully,
the volume written to the dependent path has an affine exactly equal to the
reference volume's affine, and its qform and sform codes equal the reference
volume's codes. -/
theorem fix_metadata_geometry_matches_reference (fs : FS) (refP depP : NPath)
    (ov : Bool) (fs1 : FS) (b : Bool) (vr : Volume)
    (href : loadVol fs refP = .ok vr)
    (hok : fix_metadata fs refP depP ov = (fs1, .ok b)) :
    ∃ v, fs1.files depP = some (.vol v) ∧ v.affine = vr.affine ∧
      v.qform_code = vr.qform_code ∧ v.sform_code = vr.sform_code := by
  obtain ⟨vr2, vd, hr2, hd2, hw, hbw, hfs, hb⟩ :=
    fix_metadata_ok_cases fs refP depP ov fs1 b hok
  rw [href] at hr2
  injection hr2 with hvr
  subst hvr
  subst hfs
  refine ⟨mkFixed vr vd, ?_, rfl, rfl, rfl⟩
  cases ov <;> simp [writeFile]

/-- C2: for every volume pair on which `fix_metadata` completes successfully,
the voxel array written to the dependent path is exactly the original
dependent voxel array cast to 8-bit unsigned, and the data type is uint8. -/
theorem fix_metadata_voxels_cast_uint8 (fs : FS) (refP depP : NPath)
    (ov : Bool) (fs1 : FS) (b : Bool) (vd : Volume)
    (hdep : loadVol fs depP = .ok vd)
    (hok : fix_metadata fs refP depP ov = (fs1, .ok b)) :
    ∃ v, fs1.files depP = some (.vol v) ∧ v.data = castU8 vd.data ∧
      v.dtype = Dtype.uint8 := by
  obtain ⟨vr, vd2, hr2, hd2, hw, hbw, hfs, hb⟩ :=
    fix_metadata_ok_cases fs refP depP ov fs1 b hok
  rw [hdep] at hd2
  injection hd2 with hvd
  subst hvd
  subst hfs
  refine ⟨mkFixed vr vd, ?_, rfl, rfl⟩
  cases ov <;> simp [writeFile]

/-- C8: `fix_metadata` returns `True` on every path that completes without an
exception, in both the overwrite and the backup branch, so the trailing
`return False` fall-through (the `.ok none` case of the embedded control
flow) is unreachable. -/
theorem fix_metadata_returns_true (fs : FS) (refP depP : NPath) (ov : Bool)
    (fs1 : FS) (b : Bool)
    (hok : fix_metadata fs refP depP ov = (fs1, .ok b)) : b = true := by
  obtain ⟨_, _, _, _, _, _, _, hb⟩ :=
    fix_metadata_ok_cases fs refP depP ov fs1 b hok
  exact hb

/-- Witness for C1: on the concrete fixture the hypotheses hold and the
reconciled dependent volume carries the reference geometry. -/
theorem fix_metadata_geometry_witness :
    ∃ v, ((fix_metadata fsW refW depW true).1).files depW = some (.vol v) ∧
      v.affine = vrW.affine ∧ v.qform_code = vrW.qform_code ∧
      v.sform_code = vrW.sform_code :=
  fix_metadata_geometry_matches_reference fsW refW depW true
    (fix_metadata fsW refW depW true).1 true vrW (by rfl) (by rfl)

/-- Witness for C2: on the concrete fixture the reconciled voxels are the
uint8 cast of the original dependent voxels. -/
theorem fix_metadata_voxels_witness :
    ∃ v, ((fix_metadata fsW refW depW false).1).files depW = some (.vol v) ∧
      v.data = castU8 vdW.data ∧ v.dtype = Dtype.uint8 :=
  fix_metadata_voxels_cast_uint8 fsW refW depW false
    (fix_metadata fsW refW depW false).1 true vdW (by rfl) (by rfl)

/-- Witness for C8: a concrete completed run, whose returned value is `True`. -/
theorem fix_metadata_returns_true_witness :
    fix_metadata fsW refW depW true =
      ((fix_metadata fsW refW depW true).1, Except.ok true) ∧ (true : Bool) = true :=
  ⟨by rfl, fix_metadata_returns_true fsW refW depW true
    (fix_metadata fsW refW depW true).1 true (by rfl)⟩

/-- C3: whenever the dependent file exists and the load/transform/save inside
`fix_metadata` raises some exception `e`, the wrapper converts it into an
`error` outcome carrying the dependent file name and the exception message;
being a total function, the wrapper never propagates the exception. -/
theorem wrapper_converts_exceptions (fs : FS) (p : NPath) (ov : Bool) (e : String)
    (hex : (fs.files (depPathOf p)).isSome = true)
    (herr : (fix_metadata fs p (depPathOf p) ov).2 = .error e) :
    (fixMetadataWrapper fs p ov).1 = .error ((depPathOf p).name ++ errSep ++ e) := by
  simp only [fixMetadataWrapper]
  cases hf : fs.files (depPathOf p) with
  | none => rw [hf] at hex; simp at hex
  | some c =>
    rcases hfm : fix_metadata fs p (depPathOf p) ov with ⟨fs1, r⟩
    rw [hfm] at herr
    simp only at herr
    subst herr
    rfl

/-- Witness for C3: on the corrupt fixture the wrapper reports an `error`
outcome formatted from the dependent name and the raised message. -/
theorem wrapper_converts_exceptions_witness :
    (fixMetadataWrapper fsCorruptW refW true).1 =
      .error ((depPathOf refW).name ++ errSep ++ corruptMsgW) :=
  wrapper_converts_exceptions fsCorruptW refW true corruptMsgW (by decide) (by rfl)

/-- Counterexample for C4: the code derives the dependent name with Python
`str.replace`, which replaces every occurrence of `_0000.nii.gz`, so on a
reference name containing the marker twice the derived path differs from the
path obtained by replacing only the suffix, as the claim states it. -/
theorem dep_path_not_suffix_replacement :
    depPathOf ⟨dirW, nameTwiceW⟩ ≠
      ⟨dirW, suffixReplaceSpec nameTwiceW suffix0000 suffix0001⟩ := by decide

/-- C4 (amended): the dependent path is obtained by replacing every
occurrence of `_0000.nii.gz` in the reference file name with `_0001.nii.gz`,
in the same directory; and when the dependent file does not exist the wrapper
reports `missing` and leaves the filesystem untouched. -/
theorem wrapper_missing_no_write (fs : FS) (p : NPath) (ov : Bool)
    (hmiss : fs.files (depPathOf p) = none) :
    depPathOf p = ⟨p.dir, pyReplace p.name suffix0000 suffix0001⟩ ∧
    fixMetadataWrapper fs p ov = (.missing p.name, fs) := by
  refine ⟨rfl, ?_⟩
  simp only [fixMetadataWrapper]
  rw [hmiss]

/-- Witness for amended C4: with no dependent companion present the wrapper
reports `missing` for the reference name and writes nothing. -/
theorem wrapper_missing_no_write_witness :
    depPathOf refW = ⟨refW.dir, pyReplace refW.name suffix0000 suffix0001⟩ ∧
    fixMetadataWrapper fsRefOnlyW refW false = (.missing refW.name, fsRefOnlyW) :=
  wrapper_missing_no_write fsRefOnlyW refW false (by decide)

/-- Counterexample for C7: invoking `fix_metadata` with the dependent path
equal to the reference path (exactly what `_fix_metadata_wrapper` does for a
name without the `_0000.nii.gz` marker) overwrites the file at the reference
path. -/
theorem reference_modified_counterexample :
    (fix_metadata fsSelfW pSelfW pSelfW true).1.files pSelfW ≠
      fsSelfW.files pSelfW := by decide

/-- C7 (amended): provided the dependent path — and, in backup mode, the
derived backup path — differs from the reference path (as holds for every
pair formed by the `_0000`/`_0001` naming convention), the reference file is
unchanged by `fix_metadata` in every outcome, and likewise unchanged by the
wrapper (whose `missing` outcome writes nothing at all). -/
theorem reference_file_untouched (fs : FS) (refP depP p : NPath) (ov : Bool)
    (hd : refP ≠ depP) (hb : ov = false → refP ≠ backupPathOf depP)
    (hwd : p ≠ depPathOf p) (hwb : ov = false → p ≠ backupPathOf (depPathOf p)) :
    (fix_metadata fs refP depP ov).1.files refP = fs.files refP ∧
    (fixMetadataWrapper fs p ov).2.files p = fs.files p := by
  constructor
  · exact fix_metadata_frame fs refP depP ov refP hd hb
  · simp only [fixMetadataWrapper]
    cases hf : fs.files (depPathOf p) with
    | none => rfl
    | some c =>
      rcases hfm : fix_metadata fs p (depPathOf p) ov with ⟨fs1, r⟩
      have hfr := fix_metadata_frame fs p (depPathOf p) ov p hwd hwb
      rw [hfm] at hfr
      cases r <;> simpa using hfr

/-- Witness for amended C7: on the concrete two-file fixture both the direct
call and the wrapper leave the reference file untouched. -/
theorem reference_file_untouched_witness :
    (fix_metadata fsW refW depW false).1.files refW = fsW.files refW ∧
    (fixMetadataWrapper fsW refW false).2.files refW = fsW.files refW :=
  reference_file_untouched fsW refW depW refW false (by decide) (fun _ => by decide)
    (by decide) (fun _ => by decide)

/-- C5: in backup mode (`overwrite=False`, i.e. `preserve_backup` true) a
successful run leaves a backup copy of the original, unmodified dependent
volume at the derived backup path and the reconciled volume at the dependent
path; in overwrite mode (`overwrite=True`) the run touches no path other than
the dependent path, so no backup file is created. -/
theorem backup_mode_semantics (fs : FS) (refP depP : NPath) (fs1 : FS)
    (b : Bool) (vr vd : Volume)
    (href : loadVol fs refP = .ok vr)
    (hdep : loadVol fs depP = .ok vd)
    (hok : fix_metadata fs refP depP false = (fs1, .ok b))
    (hbd : backupPathOf depP ≠ depP) :
    fs1.files (backupPathOf depP) = some (.vol vd) ∧
    fs1.files depP = some (.vol (mkFixed vr vd)) ∧
    ∀ q, q ≠ depP → (fix_metadata fs refP depP true).1.files q = fs.files q := by
  obtain ⟨vr2, vd2, hr2, hd2, hw, hbw, hfs, hb⟩ :=
    fix_metadata_ok_cases fs refP depP false fs1 b hok
  rw [href] at hr2
  injection hr2 with hvr
  subst hvr
  rw [hdep] at hd2
  injection hd2 with hvd
  subst hvd
  subst hfs
  refine ⟨?_, ?_, ?_⟩
  · simp [writeFile, hbd]
  · simp [writeFile]
  · intro q hq
    exact fix_metadata_frame fs refP depP true q hq (fun hc => absurd hc (by decide))

/-- Witness for C5: on the concrete fixture the backup run stores the
original dependent volume at the backup path and the reconciled volume at the
dependent path. -/
theorem backup_mode_semantics_witness :
    ((fix_metadata fsW refW depW false).1).files (backupPathOf depW) =
      some (.vol vdW) ∧
    ((fix_metadata fsW refW depW false).1).files depW =
      some (.vol (mkFixed vrW vdW)) :=
  ⟨(backup_mode_semantics fsW refW depW (fix_metadata fsW refW depW false).1 true
      vrW vdW (by rfl) (by rfl) (by rfl) (by decide)).1,
   (backup_mode_semantics fsW refW depW (fix_metadata fsW refW depW false).1 true
      vrW vdW (by rfl) (by rfl) (by rfl) (by decide)).2.1⟩

/-- C6: reconciliation is idempotent.  If a run of `fix_metadata` completes
successfully, running it again on the resulting filesystem (with the backup
path distinct from the reference path, as the naming convention guarantees)
completes successfully and leaves the dependent file with content identical
to the first run's output. -/
theorem fix_metadata_idempotent (fs : FS) (refP depP : NPath) (ov : Bool)
    (fs1 : FS) (b : Bool)
    (hok : fix_metadata fs refP depP ov = (fs1, .ok b))
    (hbr : ov = false → backupPathOf depP ≠ refP) :
    ∃ fs2, fix_metadata fs1 refP depP ov = (fs2, .ok true) ∧
      fs2.files depP = fs1.files depP := by
  obtain ⟨vr, vd, hr, hd, hw, hbw, hfs, hb⟩ :=
    fix_metadata_ok_cases fs refP depP ov fs1 b hok
  subst hfs
  cases ov with
  | true =>
    have hld : loadVol (writeFile fs depP (mkFixed vr vd)) depP =
        .ok (mkFixed vr vd) := by
      rw [loadVol_writeFile]; simp
    have hlr : loadVol (writeFile fs depP (mkFixed vr vd)) refP =
        .ok (if refP = depP then mkFixed vr vd else vr) := by
      rw [loadVol_writeFile]
      by_cases h : refP = depP <;> simp [h, hr]
    have hw2 : (writeFile fs depP (mkFixed vr vd)).writable depP = true := by
      simpa [writeFile] using hw
    have habs : mkFixed (if refP = depP then mkFixed vr vd else vr)
        (mkFixed vr vd) = mkFixed vr vd := by
      apply mkFixed_absorb
      by_cases h : refP = depP <;> simp [h]
    have hrun := fix_metadata_run (writeFile fs depP (mkFixed vr vd)) refP depP
      true (if refP = depP then mkFixed vr vd else vr) (mkFixed vr vd)
      hlr hld hw2 (fun hc => absurd hc (by decide))
    rw [if_pos rfl, habs] at hrun
    simp only [if_pos rfl]
    refine ⟨_, hrun, ?_⟩
    simp [writeFile]
  | false =>
    have hbr2 := hbr rfl
    have hbw2 := hbw rfl
    have hld : loadVol (writeFile (writeFile fs (backupPathOf depP) vd) depP
        (mkFixed vr vd)) depP = .ok (mkFixed vr vd) := by
      rw [loadVol_writeFile]; simp
    have hlr : loadVol (writeFile (writeFile fs (backupPathOf depP) vd) depP
        (mkFixed vr vd)) refP =
        .ok (if refP = depP then mkFixed vr vd else vr) := by
      rw [loadVol_writeFile, loadVol_writeFile]
      by_cases h : refP = depP
      · simp [h]
      · simp [h, Ne.symm hbr2, hr]
    have hw2 : (writeFile (writeFile fs (backupPathOf depP) vd) depP
        (mkFixed vr vd)).writable depP = true := by
      simpa [writeFile] using hw
    have hbw3 : (writeFile (writeFile fs (backupPathOf depP) vd) depP
        (mkFixed vr vd)).writable (backupPathOf depP) = true := by
      simpa [writeFile] using hbw2
    have habs : mkFixed (if refP = depP then mkFixed vr vd else vr)
        (mkFixed vr vd) = mkFixed vr vd := by
      apply mkFixed_absorb
      by_cases h : refP = depP <;> simp [h]
    have hrun := fix_metadata_run (writeFile (writeFile fs (backupPathOf depP)
        vd) depP (mkFixed vr vd)) refP depP false
      (if refP = depP then mkFixed vr vd else vr) (mkFixed vr vd)
      hlr hld hw2 (fun _ => hbw3)
    rw [if_neg (by decide), habs] at hrun
    simp only [if_neg (show ¬(false = true) by decide)]
    refine ⟨_, hrun, ?_⟩
    simp [writeFile]

/-- Witness for C6: on the concrete fixture, rerunning `fix_metadata` in
backup mode on the already-reconciled filesystem succeeds without changing
the dependent file. -/
theorem fix_metadata_idempotent_witness :
    ∃ fs2, fix_metadata (fix_metadata fsW refW depW false).1 refW depW false =
        (fs2, .ok true) ∧
      fs2.files depW = (fix_metadata fsW refW depW false).1.files depW :=
  fix_metadata_idempotent fsW refW depW false
    (fix_metadata fsW refW depW false).1 true (by rfl) (fun _ => by decide)

theorem lookup_cons_self (k : String) (v : Int) (rest : List (String × Int)) :
    ((k, v) :: rest).lookup k = some v := by
  simp [List.lookup]

theorem lookup_cons_ne (k k2 : String) (v : Int) (rest : List (String × Int))
    (h : k2 ≠ k) : ((k, v) :: rest).lookup k2 = rest.lookup k2 := by
  have hbeq : (k2 == k) = false := beq_eq_false_iff_ne.mpr h
  simp [List.lookup, hbeq]

theorem pyInsert_lookup_self (k : String) (v : Int) (d : List (String × Int)) :
    (pyInsert k v d).lookup k = some v := by
  induction d with
  | nil => simp [pyInsert, List.lookup]
  | cons kv rest ih =>
    rcases kv with ⟨k1, v1⟩
    by_cases h : k1 = k
    · simp [pyInsert, h, lookup_cons_self]
    · rw [pyInsert, if_neg h, lookup_cons_ne k1 k v1 _ (Ne.symm h)]
      exact ih

theorem pyInsert_lookup_other (k : String) (v : Int) (d : List (String × Int))
    (k2 : String) (h : k2 ≠ k) :
    (pyInsert k v d).lookup k2 = d.lookup k2 := by
  induction d with
  | nil => simp [pyInsert, List.lookup, beq_eq_false_iff_ne.mpr h]
  | cons kv rest ih =>
    rcases kv with ⟨k1, v1⟩
    by_cases h1 : k1 = k
    · subst h1
      rw [pyInsert, if_pos rfl, lookup_cons_ne _ _ _ _ h, lookup_cons_ne _ _ _ _ h]
    · rw [pyInsert, if_neg h1]
      by_cases h2 : k2 = k1
      · subst h2
        rw [lookup_cons_self, lookup_cons_self]
      · rw [lookup_cons_ne _ _ _ _ h2, lookup_cons_ne _ _ _ _ h2]
        exact ih

theorem pyInsert_cons_eq (k : String) (v v1 : Int) (rest : List (String × Int)) :
    pyInsert k v ((k, v1) :: rest) = (k, v) :: rest := by
  simp [pyInsert]

theorem pyInsert_cons_ne (k : String) (v : Int) (k1 : String) (v1 : Int)
    (rest : List (String × Int)) (h : k1 ≠ k) :
    pyInsert k v ((k1, v1) :: rest) = (k1, v1) :: pyInsert k v rest := by
  simp [pyInsert, h]

theorem pyInsert_keys_mem (k : String) (v : Int) (d : List (String × Int))
    (x : String) :
    x ∈ (pyInsert k v d).map Prod.fst ↔ x = k ∨ x ∈ d.map Prod.fst := by
  induction d with
  | nil => simp [pyInsert]
  | cons kv rest ih =>
    rcases kv with ⟨k1, v1⟩
    by_cases h : k1 = k
    · subst h
      rw [pyInsert_cons_eq]
      simp only [List.map_cons, List.mem_cons]
      tauto
    · rw [pyInsert_cons_ne k v k1 v1 rest h]
      simp only [List.map_cons, List.mem_cons, ih]
      tauto

theorem pyInsert_keys_nodup (k : String) (v : Int) (d : List (String × Int))
    (hnd : (d.map Prod.fst).Nodup) :
    ((pyInsert k v d).map Prod.fst).Nodup := by
  induction d with
  | nil => simp [pyInsert]
  | cons kv rest ih =>
    rcases kv with ⟨k1, v1⟩
    simp only [List.map_cons, List.nodup_cons] at hnd
    by_cases h : k1 = k
    · subst h
      rw [pyInsert_cons_eq]
      simp only [List.map_cons, List.nodup_cons]
      exact hnd
    · rw [pyInsert_cons_ne k v k1 v1 rest h]
      simp only [List.map_cons, List.nodup_cons]
      refine ⟨?_, ih hnd.2⟩
      rw [pyInsert_keys_mem]
      rintro (hc | hc)
      · exact h hc
      · exact hnd.1 hc

theorem lookup_eq_none_of_not_mem (d : List (String × Int)) (k : String)
    (h : k ∉ d.map Prod.fst) : d.lookup k = none := by
  induction d with
  | nil => rfl
  | cons kv rest ih =>
    rcases kv with ⟨k1, v1⟩
    simp only [List.map_cons, List.mem_cons] at h
    push_neg at h
    rw [lookup_cons_ne k1 k v1 rest h.1]
    exact ih h.2

/-- Lookup in the fold of Python-dict assignments performed by the update
scripts: every input key ends up at its input value plus one, every other
key keeps its binding from the initial accumulator. -/
theorem foldl_pyInsert_lookup (data : List (String × Int))
    (acc : List (String × Int)) (hnd : (data.map Prod.fst).Nodup) (k : String) :
    (data.foldl (fun a kv => pyInsert kv.1 (kv.2 + 1) a) acc).lookup k =
      match data.lookup k with
      | some v => some (v + 1)
      | none => acc.lookup k := by
  induction data generalizing acc with
  | nil => rfl
  | cons kv rest ih =>
    rcases kv with ⟨k0, v0⟩
    simp only [List.map_cons, List.nodup_cons] at hnd
    simp only [List.foldl_cons]
    rw [ih (pyInsert k0 (v0 + 1) acc) hnd.2]
    by_cases h : k = k0
    · subst h
      have hres : rest.lookup k = none :=
        lookup_eq_none_of_not_mem rest k hnd.1
      rw [hres, lookup_cons_self, pyInsert_lookup_self]
    · rw [lookup_cons_ne k0 k v0 rest h]
      cases hr : rest.lookup k with
      | some v => rfl
      | none => simp only [pyInsert_lookup_other _ _ _ _ h]

theorem foldl_pyInsert_keys_nodup (data : List (String × Int))
    (acc : List (String × Int)) (hacc : (acc.map Prod.fst).Nodup) :
    (((data.foldl (fun a kv => pyInsert kv.1 (kv.2 + 1) a) acc)).map
      Prod.fst).Nodup := by
  induction data generalizing acc with
  | nil => exact hacc
  | cons kv rest ih =>
    simp only [List.foldl_cons]
    exact ih _ (pyInsert_keys_nodup _ _ _ hacc)

theorem update_step1_map_keys_nodup (data : List (String × Int)) :
    ((update_step1_map data).map Prod.fst).Nodup :=
  foldl_pyInsert_keys_nodup data _ (by simp [pyInsert])

/-- Full lookup characterization of `update_step1_map`. -/
theorem update_step1_map_lookup (data : List (String × Int))
    (hnd : (data.map Prod.fst).Nodup) (k : String) :
    (update_step1_map data).lookup k =
      match data.lookup k with
      | some v => some (v + 1)
      | none => if k = key101 then some 1 else none := by
  rw [update_step1_map, foldl_pyInsert_lookup data _ hnd k]
  cases hr : data.lookup k with
  | some v => rfl
  | none =>
    by_cases h : k = key101
    · subst h
      simp only [if_pos rfl]
      exact lookup_cons_self key101 1 []
    · rw [if_neg h]
      exact lookup_cons_ne key101 k 1 [] h

/-- C9 (amended): `update_step1_map` (and the identical `update_step2_map`)
sends every key `k` of the input to `input[k] + 1` and always has the key
`"101"`; `"101"` maps to `1` when `"101"` is not a key of the input, and
otherwise the inserted LDH entry is overwritten to `input["101"] + 1` (which
also equals 1 exactly when `input["101"] = 0`); the operation is not
idempotent: applying it twice increments every original value by 2. -/
theorem update_map_properties (data : List (String × Int))
    (hnd : (data.map Prod.fst).Nodup) :
    (∀ k v, data.lookup k = some v →
        (update_step1_map data).lookup k = some (v + 1))
    ∧ ((update_step1_map data).lookup key101).isSome = true
    ∧ (key101 ∉ data.map Prod.fst →
        (update_step1_map data).lookup key101 = some 1)
    ∧ (∀ v, data.lookup key101 = some v →
        (update_step1_map data).lookup key101 = some (v + 1))
    ∧ (∀ k v, data.lookup k = some v →
        (update_step1_map (update_step1_map data)).lookup k = some (v + 2))
    ∧ (∀ d, update_step2_map d = update_step1_map d) := by
  have hone : ∀ k v, data.lookup k = some v →
      (update_step1_map data).lookup k = some (v + 1) := by
    intro k v h
    rw [update_step1_map_lookup data hnd k, h]
  refine ⟨hone, ?_, ?_, ?_, ?_, fun d => rfl⟩
  · rw [update_step1_map_lookup data hnd key101]
    cases hr : data.lookup key101 <;> simp
  · intro h
    rw [update_step1_map_lookup data hnd key101,
      lookup_eq_none_of_not_mem data key101 h]
    simp
  · intro v h
    exact hone key101 v h
  · intro k v h
    rw [update_step1_map_lookup (update_step1_map data)
      (update_step1_map_keys_nodup data) k, hone k v h]
    simp only [Option.some.injEq]
    ring

/-- C9 counterexample: on the input map `{"101": 0}` the rewritten map sends
`"101"` to `1` even though `"101"` is a key of the input, refuting the claim
that `"101"` maps to `1` only when `"101"` is not a key of the input. -/
theorem update_map_101_counterexample :
    (update_step1_map [(key101, 0)]).lookup key101 = some 1 ∧
      key101 ∈ ([(key101, (0 : Int))]).map Prod.fst := by decide

/-- Witness for C9 (amended): a concrete map with nodup keys, on which the
rewritten map holds the LDH key. -/
theorem update_map_properties_witness :
    ((update_step1_map [(keyOtherW, (3 : Int))]).lookup key101).isSome = true :=
  (update_map_properties [(keyOtherW, (3 : Int))] (by decide)).2.1

/-- C10: when the moved value is present, `update_step1_json`
(`update_step2_json`) puts `10` (`12`) first, leaves the list a permutation
of its old contents and every other field unchanged; `revert_step1_json`
(`revert_step2_json`) sets `regions_class_order` to `[1..10]` (`[1..12]`)
unconditionally, so revert-after-update restores the original order exactly
when the original order was `[1..10]` (`[1..12]`). -/
theorem json_order_update_revert (d : Dataset) :
    (((10 : Int) ∈ d.regions_class_order →
        (update_step1_json d).regions_class_order.head? = some 10
        ∧ (update_step1_json d).regions_class_order.Perm d.regions_class_order)
      ∧ (update_step1_json d).otherFields = d.otherFields
      ∧ (revert_step1_json (update_step1_json d)).regions_class_order = oneTo 10
      ∧ ((revert_step1_json (update_step1_json d)).regions_class_order =
          d.regions_class_order ↔ d.regions_class_order = oneTo 10)
      ∧ (d.regions_class_order = oneTo 10 →
          revert_step1_json (update_step1_json d) = d))
    ∧ (((12 : Int) ∈ d.regions_class_order →
        (update_step2_json d).regions_class_order.head? = some 12
        ∧ (update_step2_json d).regions_class_order.Perm d.regions_class_order)
      ∧ (update_step2_json d).otherFields = d.otherFields
      ∧ (revert_step2_json (update_step2_json d)).regions_class_order = oneTo 12
      ∧ ((revert_step2_json (update_step2_json d)).regions_class_order =
          d.regions_class_order ↔ d.regions_class_order = oneTo 12)
      ∧ (d.regions_class_order = oneTo 12 →
          revert_step2_json (update_step2_json d) = d)) := by
  constructor
  · refine ⟨?_, ?_, rfl, ?_, ?_⟩
    · intro h10
      constructor
      · simp [update_step1_json, h10]
      · simp only [update_step1_json, if_pos h10]
        exact (List.perm_cons_erase h10).symm
    · simp only [update_step1_json]
      split <;> rfl
    · constructor
      · intro h
        exact h.symm
      · intro h
        exact h.symm
    · intro h
      cases d with
      | mk rco rest =>
        simp only at h
        simp only [revert_step1_json, update_step1_json, h]
        split <;> rfl
  · refine ⟨?_, ?_, rfl, ?_, ?_⟩
    · intro h12
      constructor
      · simp [update_step2_json, h12]
      · simp only [update_step2_json, if_pos h12]
        exact (List.perm_cons_erase h12).symm
    · simp only [update_step2_json]
      split <;> rfl
    · constructor
      · intro h
        exact h.symm
      · intro h
        exact h.symm
    · intro h
      cases d with
      | mk rco rest =>
        simp only at h
        simp only [revert_step2_json, update_step2_json, h]
        split <;> rfl

/-- Witness for C10: on the concrete step-1 dataset (order `[1..10]`) the
updated order starts with 10 and revert-after-update restores the dataset,
and likewise on the concrete step-2 dataset (order `[1..12]`) with 12. -/
theorem json_order_update_revert_witness :
    (update_step1_json datasetW1).regions_class_order.head? = some 10 ∧
    revert_step1_json (update_step1_json datasetW1) = datasetW1 ∧
    (update_step2_json datasetW).regions_class_order.head? = some 12 ∧
    revert_step2_json (update_step2_json datasetW) = datasetW :=
  ⟨((json_order_update_revert datasetW1).1.1 (by decide)).1,
   (json_order_update_revert datasetW1).1.2.2.2.2 rfl,
   ((json_order_update_revert datasetW).2.1 (by decide)).1,
   (json_order_update_revert datasetW).2.2.2.2.2 rfl⟩

end TotalSpineSeg
